import Mathlib

/-!
Verification of the subject-tracking crop planner of the video-wizard
processing engine (`apps/processing-engine`).  The Python source is shallowly
embedded: `float` arithmetic is modelled by exact rationals (`ℚ`), the Python
`int(...)` conversion (truncation toward zero) by `pyInt`, NumPy reductions by
explicit list folds, and the stateful Kalman smoother by explicit state
passing.
-/

namespace VideoWizard

/-- the Python `int(x)` applied to a real-valued expression: truncation toward
zero. -/
def pyInt (q : ℚ) : ℤ := if 0 ≤ q then ⌊q⌋ else ⌈q⌉

/-! ## Aspect Planner — `SmartClipper._calculate_crop_dimensions`

Input: source width/height and the target aspect ratio `(ar_w, ar_h)`.
Output: `(crop_width, crop_height, skip_face_detection)`.  The track_subject flag of the spec is the negation of the returned `skip_face_detection` flag. -/

/-- Embedding of `SmartClipper._calculate_crop_dimensions` (smart_clipper.py,
lines 44–108).  Branch order follows the source: exact match, tolerance
near-match, more-vertical-than-target, standard crop. -/
def calculateCropDimensions (width height arW arH : ℤ) : ℤ × ℤ × Bool :=
  let sourceAspect : ℚ := (width : ℚ) / (height : ℚ)
  let targetAspect : ℚ := (arW : ℚ) / (arH : ℚ)
  let aspectDiff : ℚ := |sourceAspect - targetAspect| / targetAspect
  let idealWidth : ℤ := pyInt ((height : ℚ) * arW / arH)
  let idealHeight : ℤ := pyInt ((width : ℚ) * arH / arW)
  if width = idealWidth ∧ height = idealHeight then
    (width, height, true)
  else if aspectDiff ≤ 15/100 then
    if idealWidth ≤ width then (idealWidth, height, true)
    else (width, idealHeight, true)
  else if sourceAspect < targetAspect then
    (width, pyInt ((width : ℚ) * arH / arW), true)
  else
    (pyInt ((height : ℚ) * arW / arH), height, false)

/-- The track_subject flag of the spec: negation of `skip_face_detection`. -/
def trackSubject (r : ℤ × ℤ × Bool) : Bool := !r.2.2

/-! ## Crop-window x derivation — `SmartClipper._detect_face_center`
(smart_clipper.py, lines 388–436) and `VideoAnalyzer._generate_crop_data`
(analyzer.py, lines 291–296). -/

/-- Pixel-space horizontal center of a relative bounding box:
`int((bboxC.xmin + bboxC.width / 2) * width)`. -/
def faceCenterPx (xmin bw : ℚ) (width : ℤ) : ℤ :=
  pyInt ((xmin + bw / 2) * (width : ℚ))

/-- Crop-window x for a chosen face center, from
`SmartClipper._detect_face_center`:
`crop_x = face_center_x - (crop_width // 2)` then
`crop_x = max(0, min(crop_x, width - crop_width))`. -/
def cropXFromCenter (faceCenterX width cropWidth : ℤ) : ℤ :=
  max 0 (min (faceCenterX - cropWidth / 2) (width - cropWidth))

/-- Fallback when no face is detected, from `SmartClipper._detect_face_center`:
`0` if `crop_width >= width`, else `(width - crop_width) // 2`. -/
def cropXFallback (width cropWidth : ℤ) : ℤ :=
  if cropWidth ≥ width then 0 else (width - cropWidth) / 2

/-- Crop x in `VideoAnalyzer._generate_crop_data` for one interpolated center:
`crop_x = int(center_x - crop_width / 2)` then
`crop_x = max(0, min(crop_x, width - crop_width))`. -/
def analyzerCropX (centerX : ℚ) (width cropWidth : ℤ) : ℤ :=
  max 0 (min (pyInt (centerX - (cropWidth : ℚ) / 2)) (width - cropWidth))

/-- C3: the Aspect Planner on a `(1920,1080)` source with target `9:16`
returns crop `(607,1080)` with `track_subject = true`, and on a `(1080,1920)`
source with target `9:16` takes the exact-match branch (both ideal dimensions
coincide with the source), returning `(1080,1920)` with
`track_subject = false`. -/
theorem C3_aspect_planner_examples :
    calculateCropDimensions 1920 1080 9 16 = (607, 1080, false) ∧
    trackSubject (calculateCropDimensions 1920 1080 9 16) = true ∧
    calculateCropDimensions 1080 1920 9 16 = (1080, 1920, true) ∧
    trackSubject (calculateCropDimensions 1080 1920 9 16) = false ∧
    (1080 : ℤ) = pyInt ((1920 : ℚ) * 9 / 16) ∧
    (1920 : ℤ) = pyInt ((1080 : ℚ) * 16 / 9) := by
  have h1 : calculateCropDimensions 1920 1080 9 16 = (607, 1080, false) := by
    simp only [calculateCropDimensions, pyInt]
    norm_num [abs_of_pos]
  have h2 : calculateCropDimensions 1080 1920 9 16 = (1080, 1920, true) := by
    simp only [calculateCropDimensions, pyInt]
    norm_num
  refine ⟨h1, by rw [h1]; rfl, h2, by rw [h2]; rfl, ?_, ?_⟩ <;>
    · rw [pyInt]
      norm_num

/-- All three crop-x producers clamp into `[0, width - crop_width]`. -/
theorem clamp_mem (a b : ℤ) (h : 0 ≤ b) :
    0 ≤ max 0 (min a b) ∧ max 0 (min a b) ≤ b := by omega

/-- C2: under the precondition `crop_width ≤ width`, the produced crop-window
x equals the horizontal center of the chosen candidate minus half the crop width,
clamped into `[0, width - crop_width]`; and every produced crop x — face
path, no-face fallback, and the per-frame interpolated path of the analyzer — lies
within `[0, width - crop_width]`. -/
theorem C2_crop_x_clamped (c : ℤ) (centerX : ℚ) (width cropWidth : ℤ)
    (h : cropWidth ≤ width) :
    cropXFromCenter c width cropWidth =
      max 0 (min (c - cropWidth / 2) (width - cropWidth)) ∧
    (0 ≤ cropXFromCenter c width cropWidth ∧
      cropXFromCenter c width cropWidth ≤ width - cropWidth) ∧
    (0 ≤ cropXFallback width cropWidth ∧
      cropXFallback width cropWidth ≤ width - cropWidth) ∧
    (0 ≤ analyzerCropX centerX width cropWidth ∧
      analyzerCropX centerX width cropWidth ≤ width - cropWidth) := by
  refine ⟨rfl, clamp_mem _ _ (by omega), ?_, clamp_mem _ _ (by omega)⟩
  rw [cropXFallback]
  split <;> omega

/-- Concrete instance of `C2_crop_x_clamped`: the scenario given in the spec, face
center 864 in a 1920-wide frame with crop width 607. -/
theorem C2_crop_x_clamped_witness :
    (607 : ℤ) ≤ 1920 ∧
    cropXFromCenter 864 1920 607 =
      max 0 (min (864 - 607 / 2) (1920 - 607)) ∧
    0 ≤ cropXFromCenter 864 1920 607 ∧
    cropXFromCenter 864 1920 607 ≤ 1920 - 607 := by
  have h := C2_crop_x_clamped 864 0 1920 607 (by decide)
  exact ⟨by decide, h.1, h.2.1⟩

/-! ## Trajectory Interpolator — `VideoAnalyzer._generate_crop_data`
(analyzer.py, lines 257–310).

`all_centers = np.interp(range(total_frames), frame_numbers,
smoothed_centers)`: piecewise-linear interpolation over the sampled frame
indices, clamping to the first/last sample outside the sampled range.
`interp` embeds the behaviour of `np.interp` for strictly increasing sample
indices, on the sample list zipped into `(frame_index, value)` pairs. -/

/-- Embedding of `np.interp` under strictly increasing sample indices: clamp to the first
value at or before the first index, interpolate linearly on each segment,
clamp to the last value after the last index. -/
def interp : List (ℕ × ℚ) → ℕ → ℚ
  | [], _ => 0
  | [(_, y)], _ => y
  | (x₀, y₀) :: (x₁, y₁) :: rest, t =>
    if t ≤ x₀ then y₀
    else if t ≤ x₁ then y₀ + (y₁ - y₀) * ((t : ℚ) - (x₀ : ℚ)) / ((x₁ : ℚ) - (x₀ : ℚ))
    else interp ((x₁, y₁) :: rest) t

/-- The dense per-frame center sequence `all_centers`, one value per output
frame index `0..T-1`. -/
def denseCenters (samples : List (ℕ × ℚ)) (T : ℕ) : List ℚ :=
  (List.range T).map (interp samples)

lemma interp_before (x : ℕ) (y : ℚ) (rest : List (ℕ × ℚ)) (t : ℕ) (h : t ≤ x) :
    interp ((x, y) :: rest) t = y := by
  cases rest with
  | nil => rfl
  | cons p rs =>
    obtain ⟨x₁, y₁⟩ := p
    simp [interp, h]

lemma interp_at_sample (samples : List (ℕ × ℚ))
    (hmono : samples.Pairwise (fun p q => p.1 < q.1)) :
    ∀ p ∈ samples, interp samples p.1 = p.2 := by
  induction samples with
  | nil => intro p hp; cases hp
  | cons a l ih =>
    intro p hp
    obtain ⟨x₀, y₀⟩ := a
    rcases List.mem_cons.mp hp with hp | hp
    · subst hp
      exact interp_before _ _ _ _ le_rfl
    · have hx₀ : x₀ < p.1 := (List.pairwise_cons.mp hmono).1 p hp
      have hmono' := (List.pairwise_cons.mp hmono).2
      cases l with
      | nil => cases hp
      | cons b rs =>
        obtain ⟨x₁, y₁⟩ := b
        rcases List.mem_cons.mp hp with hp' | hp'
        · subst hp'
          simp only [interp]
          rw [if_neg (by omega), if_pos le_rfl]
          have hne : ((x₁ : ℚ)) - (x₀ : ℚ) ≠ 0 := by
            have : (x₀ : ℚ) < (x₁ : ℚ) := by exact_mod_cast hx₀
            linarith
          field_simp
        · have hx₁ : x₁ < p.1 := (List.pairwise_cons.mp hmono').1 p hp'
          simp only [interp]
          rw [if_neg (by omega), if_neg (by omega)]
          exact ih hmono' p hp

lemma interp_after (samples : List (ℕ × ℚ)) (hne : samples ≠ [])
    (hmono : samples.Pairwise (fun p q => p.1 < q.1)) (t : ℕ)
    (h : (samples.getLast hne).1 ≤ t) :
    interp samples t = (samples.getLast hne).2 := by
  induction samples with
  | nil => exact absurd rfl hne
  | cons a l ih =>
    obtain ⟨x₀, y₀⟩ := a
    cases l with
    | nil => simp [interp]
    | cons b rs =>
      obtain ⟨x₁, y₁⟩ := b
      have hmono' := (List.pairwise_cons.mp hmono).2
      have hlast_eq : ((x₀, y₀) :: (x₁, y₁) :: rs).getLast hne =
          ((x₁, y₁) :: rs).getLast (by simp) := by
        rw [List.getLast_cons]
      rw [hlast_eq] at h ⊢
      have hlast_mem : ((x₁, y₁) :: rs).getLast (by simp) ∈ (x₁, y₁) :: rs :=
        List.getLast_mem _
      have hx₀lt : x₀ < (((x₁, y₁) :: rs).getLast (by simp)).1 :=
        (List.pairwise_cons.mp hmono).1 _ hlast_mem
      have ht₀ : ¬ t ≤ x₀ := by omega
      simp only [interp]
      rw [if_neg ht₀]
      by_cases ht₁ : t ≤ x₁
      · rcases List.mem_cons.mp hlast_mem with hl | hl
        · rw [if_pos ht₁, hl]
          rw [hl] at h
          have htx : t = x₁ := by
            simp only at h
            omega
          have hlt : x₀ < x₁ := by
            rw [hl] at hx₀lt
            simpa using hx₀lt
          rw [htx]
          have hne' : ((x₁ : ℚ)) - (x₀ : ℚ) ≠ 0 := by
            have : (x₀ : ℚ) < (x₁ : ℚ) := by exact_mod_cast hlt
            linarith
          field_simp
        · have hx₁lt : x₁ < (((x₁, y₁) :: rs).getLast (by simp)).1 :=
            (List.pairwise_cons.mp hmono').1 _ hl
          omega
      · rw [if_neg ht₁]
        exact ih (by simp) hmono' h

lemma denseCenters_getElem (samples : List (ℕ × ℚ)) (T i : ℕ) (hi : i < T) :
    (denseCenters samples T)[i]? = some (interp samples i) := by
  simp [denseCenters, hi]

/-- C5: for every non-empty sparse trajectory with strictly increasing frame
indices and every total frame count `T`, the dense output of the
interpolator equals the sampled value at every output index that is a sample
index, the value of the first sample before the first sample index, and the value
of the last sample after the last sample index (no extrapolation). -/
theorem C5_interpolator_correct (samples : List (ℕ × ℚ)) (T : ℕ)
    (hne : samples ≠ [])
    (hmono : samples.Pairwise (fun p q => p.1 < q.1)) :
    (∀ p ∈ samples, p.1 < T → (denseCenters samples T)[p.1]? = some p.2) ∧
    (∀ i < T, i < (samples.head hne).1 →
      (denseCenters samples T)[i]? = some (samples.head hne).2) ∧
    (∀ i < T, (samples.getLast hne).1 < i →
      (denseCenters samples T)[i]? = some (samples.getLast hne).2) := by
  refine ⟨?_, ?_, ?_⟩
  · intro p hp hpT
    rw [denseCenters_getElem _ _ _ hpT, interp_at_sample samples hmono p hp]
  · intro i hiT hihead
    rw [denseCenters_getElem _ _ _ hiT]
    cases samples with
    | nil => exact absurd rfl hne
    | cons a l =>
      obtain ⟨x, y⟩ := a
      simp only [List.head_cons] at hihead ⊢
      rw [interp_before x y l i (le_of_lt hihead)]
  · intro i hiT hilast
    rw [denseCenters_getElem _ _ _ hiT,
      interp_after samples hne hmono i (le_of_lt hilast)]

/-- Concrete instance of `C5_interpolator_correct`: samples
`[(1, 4), (3, 8)]` with 6 output frames. -/
theorem C5_interpolator_correct_witness :
    (∀ p ∈ [((1 : ℕ), (4 : ℚ)), (3, 8)], p.1 < 6 →
      (denseCenters [((1 : ℕ), (4 : ℚ)), (3, 8)] 6)[p.1]? = some p.2) ∧
    (∀ i < 6, i < (([((1 : ℕ), (4 : ℚ)), (3, 8)]).head (by simp)).1 →
      (denseCenters [((1 : ℕ), (4 : ℚ)), (3, 8)] 6)[i]? =
        some (([((1 : ℕ), (4 : ℚ)), (3, 8)]).head (by simp)).2) ∧
    (∀ i < 6, (([((1 : ℕ), (4 : ℚ)), (3, 8)]).getLast (by simp)).1 < i →
      (denseCenters [((1 : ℕ), (4 : ℚ)), (3, 8)] 6)[i]? =
        some (([((1 : ℕ), (4 : ℚ)), (3, 8)]).getLast (by simp)).2) :=
  C5_interpolator_correct [((1 : ℕ), (4 : ℚ)), (3, 8)] 6 (by simp)
    (by simp)

/-! ## Recursive-filter smoother — `KalmanSmoother` (analyzer.py,
lines 318–376).

The Python class holds mutable fields `estimate` (initially `None`) and
`error` (initially `1.0`); `update` returns the measurement unchanged the
first time and afterwards blends prediction and measurement by the computed
gain.  The embedding passes the state explicitly: `kalmanUpdate` returns the
filtered value together with the successor state, `kalmanSmooth` folds it
over a position list. -/

structure KalmanState where
  processVariance : ℚ
  measurementVariance : ℚ
  estimate : Option ℚ
  error : ℚ

/-- Embedding of the constructor state: no estimate yet, error 1.0. -/
def kalmanInit (pv mv : ℚ) : KalmanState := ⟨pv, mv, none, 1⟩

/-- Embedding of `KalmanSmoother.update`: seed on the first measurement,
otherwise blend prediction and measurement by the computed gain. -/
def kalmanUpdate (s : KalmanState) (m : ℚ) : ℚ × KalmanState :=
  match s.estimate with
  | none => (m, { s with estimate := some m })
  | some est =>
    let predictionError := s.error + s.processVariance
    let gain := predictionError / (predictionError + s.measurementVariance)
    let newEst := est + gain * (m - est)
    (newEst, { s with estimate := some newEst,
                      error := (1 - gain) * predictionError })

/-- Embedding of `KalmanSmoother.smooth`: fold `update` over the positions,
returning all filtered values and the final state. -/
def kalmanSmooth (s : KalmanState) : List ℚ → List ℚ × KalmanState
  | [] => ([], s)
  | p :: rest =>
    let r := kalmanUpdate s p
    let rs := kalmanSmooth r.2 rest
    (r.1 :: rs.1, rs.2)

lemma kalmanUpdate_step (s : KalmanState) (e m : ℚ)
    (hest : s.estimate = some e) (herr : 0 ≤ s.error)
    (hpv : 0 < s.processVariance) (hmv : 0 < s.measurementVariance) :
    min e m ≤ (kalmanUpdate s m).1 ∧ (kalmanUpdate s m).1 ≤ max e m ∧
    (kalmanUpdate s m).2.estimate = some (kalmanUpdate s m).1 ∧
    0 ≤ (kalmanUpdate s m).2.error ∧
    (kalmanUpdate s m).2.processVariance = s.processVariance ∧
    (kalmanUpdate s m).2.measurementVariance = s.measurementVariance := by
  simp only [kalmanUpdate, hest]
  set pe := s.error + s.processVariance with hpe
  have hpe0 : 0 < pe := by positivity
  have hden : 0 < pe + s.measurementVariance := by positivity
  set g := pe / (pe + s.measurementVariance) with hg
  have hg0 : 0 ≤ g := by positivity
  have hg1 : g ≤ 1 := by
    rw [hg, div_le_one hden]
    linarith
  refine ⟨?_, ?_, trivial, ?_, trivial, trivial⟩
  · rcases le_total e m with hem | hem
    · have : 0 ≤ g * (m - e) := by
        apply mul_nonneg hg0
        linarith
      simp only [min_eq_left hem]
      linarith
    · have : g * (m - e) ≤ 0 := by
        apply mul_nonpos_of_nonneg_of_nonpos hg0
        linarith
      simp only [min_eq_right hem]
      nlinarith [mul_le_mul_of_nonneg_left (sub_le_sub_right hem e) hg0]
  · rcases le_total e m with hem | hem
    · simp only [max_eq_right hem]
      nlinarith [mul_le_mul_of_nonneg_right hg1 (sub_nonneg.mpr hem)]
    · have : g * (m - e) ≤ 0 := by
        apply mul_nonpos_of_nonneg_of_nonpos hg0
        linarith
      simp only [max_eq_left hem]
      linarith
  · have : 0 ≤ 1 - g := by linarith
    positivity

lemma kalmanSmooth_chain (ps : List ℚ) : ∀ (s : KalmanState) (e : ℚ),
    s.estimate = some e → 0 ≤ s.error →
    0 < s.processVariance → 0 < s.measurementVariance →
    (kalmanSmooth s ps).1.length = ps.length ∧
    (∀ k < ps.length,
      min ((e :: (kalmanSmooth s ps).1).getD k 0) (ps.getD k 0) ≤
        (kalmanSmooth s ps).1.getD k 0 ∧
      (kalmanSmooth s ps).1.getD k 0 ≤
        max ((e :: (kalmanSmooth s ps).1).getD k 0) (ps.getD k 0)) ∧
    (kalmanSmooth s ps).2.estimate =
      some ((e :: (kalmanSmooth s ps).1).getLast (by simp)) ∧
    0 ≤ (kalmanSmooth s ps).2.error ∧
    (kalmanSmooth s ps).2.processVariance = s.processVariance ∧
    (kalmanSmooth s ps).2.measurementVariance = s.measurementVariance := by
  induction ps with
  | nil =>
    intro s e hest herr hpv hmv
    refine ⟨rfl, ?_, ?_, herr, rfl, rfl⟩
    · intro k hk
      simp at hk
    · simpa [kalmanSmooth] using hest
  | cons m rest ih =>
    intro s e hest herr hpv hmv
    obtain ⟨hmin, hmax, hest₁, herr₁, hpv₁, hmv₁⟩ :=
      kalmanUpdate_step s e m hest herr hpv hmv
    obtain ⟨ihlen, ihchain, ihest, iherr, ihpv, ihmv⟩ :=
      ih (kalmanUpdate s m).2 (kalmanUpdate s m).1 hest₁ herr₁
        (by rw [hpv₁]; exact hpv) (by rw [hmv₁]; exact hmv)
    simp only [kalmanSmooth]
    refine ⟨?_, ?_, ?_, iherr, ?_, ?_⟩
    · simpa using ihlen
    · intro k hk
      cases k with
      | zero => exact ⟨by simpa using hmin, by simpa using hmax⟩
      | succ k =>
        have hk' : k < rest.length := by simpa using hk
        have := ihchain k hk'
        simpa using this
    · rw [ihest]
      congr 1
    · rw [ihpv, hpv₁]
    · rw [ihmv, hmv₁]

/-- C6: for every non-empty input sequence fed to a freshly constructed
recursive-filter smoother with positive process and measurement variances,
the first output equals the first input exactly, and each subsequent output
lies between the previous estimate (the previous output) and the new
measurement, inclusive. -/
theorem C6_kalman (pv mv : ℚ) (hpv : 0 < pv) (hmv : 0 < mv)
    (ps : List ℚ) (hne : ps ≠ []) :
    (kalmanSmooth (kalmanInit pv mv) ps).1.head? = ps.head? ∧
    (∀ k, k + 1 < ps.length →
      min ((kalmanSmooth (kalmanInit pv mv) ps).1.getD k 0) (ps.getD (k + 1) 0) ≤
        (kalmanSmooth (kalmanInit pv mv) ps).1.getD (k + 1) 0 ∧
      (kalmanSmooth (kalmanInit pv mv) ps).1.getD (k + 1) 0 ≤
        max ((kalmanSmooth (kalmanInit pv mv) ps).1.getD k 0) (ps.getD (k + 1) 0)) := by
  cases ps with
  | nil => exact absurd rfl hne
  | cons m rest =>
    have hupd : kalmanUpdate (kalmanInit pv mv) m =
        (m, { kalmanInit pv mv with estimate := some m }) := rfl
    obtain ⟨_, hchain, _, _, _, _⟩ :=
      kalmanSmooth_chain rest { kalmanInit pv mv with estimate := some m } m
        rfl (by norm_num [kalmanInit]) hpv hmv
    constructor
    · simp [kalmanSmooth, hupd]
    · intro k hk
      have hk' : k < rest.length := by simpa using hk
      have := hchain k hk'
      simp only [kalmanSmooth, hupd] at *
      constructor
      · simpa using this.1
      · simpa using this.2

/-- Concrete instance of `C6_kalman`: variances 1, inputs `[4, 10]`. -/
theorem C6_kalman_witness :
    ((0 : ℚ) < 1 ∧ (0 : ℚ) < 1 ∧ ([(4 : ℚ), 10] : List ℚ) ≠ []) ∧
    ((kalmanSmooth (kalmanInit 1 1) [(4 : ℚ), 10]).1.head? = ([(4 : ℚ), 10] : List ℚ).head? ∧
    (∀ k, k + 1 < ([(4 : ℚ), 10] : List ℚ).length →
      min ((kalmanSmooth (kalmanInit 1 1) [(4 : ℚ), 10]).1.getD k 0) (([(4 : ℚ), 10] : List ℚ).getD (k + 1) 0) ≤
        (kalmanSmooth (kalmanInit 1 1) [(4 : ℚ), 10]).1.getD (k + 1) 0 ∧
      (kalmanSmooth (kalmanInit 1 1) [(4 : ℚ), 10]).1.getD (k + 1) 0 ≤
        max ((kalmanSmooth (kalmanInit 1 1) [(4 : ℚ), 10]).1.getD k 0) (([(4 : ℚ), 10] : List ℚ).getD (k + 1) 0))) :=
  ⟨⟨by decide, by decide, by decide⟩,
    C6_kalman 1 1 (by decide) (by decide) [(4 : ℚ), 10] (by decide)⟩

/-- C10: the recursive-filter smoother retains estimate and error across
calls — after a first non-empty `smooth` call the estimate is retained, the
first output of a second call is the convex blend of that retained estimate
with the new first measurement (computed with the retained error), differs
from the measurement whenever they disagree, and only a freshly constructed
instance returns the first measurement unchanged. -/
theorem C10_kalman (pv mv : ℚ) (hpv : 0 < pv) (hmv : 0 < mv)
    (ps₁ : List ℚ) (hne₁ : ps₁ ≠ []) (m : ℚ) (ps₂ : List ℚ) :
    ∃ e : ℚ,
      ((kalmanSmooth (kalmanInit pv mv) ps₁).2).estimate = some e ∧
      (kalmanSmooth (kalmanSmooth (kalmanInit pv mv) ps₁).2 (m :: ps₂)).1.head? =
        some (e + (((kalmanSmooth (kalmanInit pv mv) ps₁).2.error + pv) /
          (((kalmanSmooth (kalmanInit pv mv) ps₁).2.error + pv) + mv)) * (m - e)) ∧
      (m ≠ e →
        (kalmanSmooth (kalmanSmooth (kalmanInit pv mv) ps₁).2 (m :: ps₂)).1.head? ≠
          some m) ∧
      (kalmanSmooth (kalmanInit pv mv) (m :: ps₂)).1.head? = some m := by
  cases ps₁ with
  | nil => exact absurd rfl hne₁
  | cons p rest =>
    have hupd : kalmanUpdate (kalmanInit pv mv) p =
        (p, { kalmanInit pv mv with estimate := some p }) := rfl
    obtain ⟨_, _, hest, herr, hpvp, hmvp⟩ :=
      kalmanSmooth_chain rest { kalmanInit pv mv with estimate := some p } p
        rfl (by norm_num [kalmanInit]) hpv hmv
    set st := (kalmanSmooth (kalmanInit pv mv) (p :: rest)).2 with hst
    have hst' : st = (kalmanSmooth { kalmanInit pv mv with estimate := some p } rest).2 := by
      rw [hst]
      simp [kalmanSmooth, hupd]
    set e := (p :: (kalmanSmooth { kalmanInit pv mv with estimate := some p } rest).1).getLast (by simp) with he
    have hstest : st.estimate = some e := by rw [hst']; exact hest
    have hsterr : 0 ≤ st.error := by rw [hst']; exact herr
    have hstpv : st.processVariance = pv := by rw [hst']; simpa [kalmanInit] using hpvp
    have hstmv : st.measurementVariance = mv := by rw [hst']; simpa [kalmanInit] using hmvp
    have hpe : 0 < st.error + pv := by linarith
    have hden : 0 < st.error + pv + mv := by linarith
    refine ⟨e, hstest, ?_, ?_, ?_⟩
    · simp only [kalmanSmooth, kalmanUpdate, hstest, hstpv, hstmv]
      rfl
    · intro hme hcontra
      simp only [kalmanSmooth, kalmanUpdate, hstest, hstpv, hstmv] at hcontra
      have hval : e + (st.error + pv) / (st.error + pv + mv) * (m - e) = m := by
        simpa using hcontra
      have hg1 : (st.error + pv) / (st.error + pv + mv) < 1 := by
        rw [div_lt_one hden]
        linarith
      have : (1 - (st.error + pv) / (st.error + pv + mv)) * (m - e) = 0 := by
        ring_nf
        ring_nf at hval
        linarith
      rcases mul_eq_zero.mp this with h1 | h2
      · linarith
      · exact hme (by linarith)
    · simp [kalmanSmooth, kalmanUpdate, kalmanInit]

/-- Concrete instance of `C10_kalman`: variances 1, first sequence `[4]`,
second sequence `10 :: []`. -/
theorem C10_kalman_witness :
    ((0 : ℚ) < 1 ∧ ([(4 : ℚ)] : List ℚ) ≠ []) ∧
    (∃ e : ℚ,
      ((kalmanSmooth (kalmanInit 1 1) [(4 : ℚ)]).2).estimate = some e ∧
      (kalmanSmooth (kalmanSmooth (kalmanInit 1 1) [(4 : ℚ)]).2 ((10 : ℚ) :: [])).1.head? =
        some (e + (((kalmanSmooth (kalmanInit 1 1) [(4 : ℚ)]).2.error + 1) /
          (((kalmanSmooth (kalmanInit 1 1) [(4 : ℚ)]).2.error + 1) + 1)) * (10 - e)) ∧
      ((10 : ℚ) ≠ e →
        (kalmanSmooth (kalmanSmooth (kalmanInit 1 1) [(4 : ℚ)]).2 ((10 : ℚ) :: [])).1.head? ≠
          some 10) ∧
      (kalmanSmooth (kalmanInit 1 1) ((10 : ℚ) :: [])).1.head? = some 10) :=
  ⟨⟨by decide, by decide⟩,
    C10_kalman 1 1 (by decide) (by decide) [(4 : ℚ)] (by decide) 10 []⟩

/-! ## Windowed moving-average smoothers — `VideoAnalyzer._smooth_positions`
(analyzer.py, lines 229–255, default window 15) and
`SmartClipper._smooth_coordinates` (smart_clipper.py, lines 506–535, default
window 30).

`np.convolve(positions, np.ones(W)/W, mode same)` is embedded by
`movingAvgSame`: the full convolution has length `M + W - 1`, and mode
mode same keeps `max M W` entries starting at `(min M W - 1) / 2`.  The
analyzer then recomputes the first and last `W/2` entries as means of the
available edge sub-windows (`fixEdges`). -/

/-- Embedding of `np.mean` on a list of rationals. -/
def pyMean (l : List ℚ) : ℚ := l.sum / l.length

/-- Full convolution of `pos` with the length-`W` kernel `np.ones(W)/W`. -/
def convFull (pos : List ℚ) (W : ℕ) : List ℚ :=
  (List.range (pos.length + W - 1)).map (fun k =>
    ((List.range pos.length).map
      (fun j => if j ≤ k ∧ k < j + W then pos.getD j 0 else 0)).sum / W)

/-- Embedding of `np.convolve(pos, np.ones(W)/W)` in mode same. -/
def movingAvgSame (W : ℕ) (pos : List ℚ) : List ℚ :=
  ((convFull pos W).drop ((min pos.length W - 1) / 2)).take (max pos.length W)

/-- Edge-fix loop of the analyzer: for `i in range(W//2)` overwrite entry `i`
with the mean of `positions[:i+W//2+1]` and entry `-(i+1)` with the mean of
`positions[-(i+W//2+1):]`. -/
def fixEdges (W : ℕ) (positions smoothed : List ℚ) : List ℚ :=
  (List.range (W / 2)).foldl (fun s i =>
    let s₁ := s.set i (pyMean (positions.take (i + W / 2 + 1)))
    s₁.set (s₁.length - (i + 1))
      (pyMean (positions.drop (positions.length - (i + W / 2 + 1))))) smoothed

/-- Embedding of `VideoAnalyzer._smooth_positions`: when the sample count is
below the window size, the window shrinks to `max(3, count // 2)`; then a
centered moving average is applied and the edges recomputed. -/
def smoothPositions (windowSize : ℕ) (positions : List ℚ) : List ℚ :=
  let W := if positions.length < windowSize then max 3 (positions.length / 2)
           else windowSize
  fixEdges W positions (movingAvgSame W positions)

/-- Embedding of `SmartClipper._smooth_coordinates`: when the coordinate
count is below the window, the input is returned as-is; otherwise the moving
average is applied and cast back to integers. -/
def smoothCoordinates (window : ℕ) (coords : List ℤ) : List ℤ :=
  if coords.length < window then coords
  else (movingAvgSame window (coords.map (fun c => (c : ℚ)))).map pyInt

/-- C7 counterexample: the claim asserts that every windowed moving-average
smoother (including the clip-extraction one, default window 30) shrinks the
window to `max(3, count/2)` when the sample count is below `W` and still
smooths.  The clip-extraction smoother `SmartClipper._smooth_coordinates`
instead returns its 3-sample input `[0, 300, 0]` unchanged, while the
shrink-and-average behaviour (implemented by the analyzer) yields
`[150, 100, 150]` on the same input. -/
theorem C7_counterexample :
    smoothCoordinates 30 [0, 300, 0] = [0, 300, 0] ∧
    smoothPositions 30 [0, 300, 0] = [150, 100, 150] ∧
    smoothPositions 30 [0, 300, 0] ≠ [0, 300, 0] := by
  have h : smoothPositions 30 [0, 300, 0] = [150, 100, 150] := by
    simp [smoothPositions, movingAvgSame, convFull, fixEdges, pyMean,
      List.range_succ]
    norm_num
  refine ⟨rfl, h, ?_⟩
  rw [h]
  decide

/-- C7 (amended): for inputs with fewer samples than the window, the
whole-video analysis smoother (`VideoAnalyzer._smooth_positions`) shrinks the
window to `max(3, count/2)` and still applies the centered moving average
with edge recomputation, while the clip-extraction smoother
(`SmartClipper._smooth_coordinates`) returns its input unsmoothed. -/
theorem C7_small_window_behaviour (W : ℕ) (positions : List ℚ)
    (coords : List ℤ) (h1 : positions.length < W) (h2 : coords.length < W) :
    smoothPositions W positions =
      fixEdges (max 3 (positions.length / 2)) positions
        (movingAvgSame (max 3 (positions.length / 2)) positions) ∧
    smoothCoordinates W coords = coords := by
  constructor
  · simp only [smoothPositions, if_pos h1]
  · simp only [smoothCoordinates, if_pos h2]

/-- Concrete instance of `C7_small_window_behaviour` at window 30 on
3-element inputs. -/
theorem C7_small_window_behaviour_witness :
    (([(0 : ℚ), 300, 0] : List ℚ).length < 30 ∧
      ([(0 : ℤ), 300, 0] : List ℤ).length < 30) ∧
    (smoothPositions 30 [(0 : ℚ), 300, 0] =
      fixEdges (max 3 (([(0 : ℚ), 300, 0] : List ℚ).length / 2))
        [(0 : ℚ), 300, 0]
        (movingAvgSame (max 3 (([(0 : ℚ), 300, 0] : List ℚ).length / 2))
          [(0 : ℚ), 300, 0]) ∧
    smoothCoordinates 30 [(0 : ℤ), 300, 0] = [(0 : ℤ), 300, 0]) :=
  ⟨⟨by decide, by decide⟩,
    C7_small_window_behaviour 30 [(0 : ℚ), 300, 0] [(0 : ℤ), 300, 0]
      (by decide) (by decide)⟩

/-! ## Clip Boundary Mapper — `SmartClipper._track_faces_in_range`
(smart_clipper.py, lines 357–371).

`start_frame = int(start_time * fps)`, `end_frame = int(end_time * fps)`,
and the tracking loop runs `while current_frame < end_frame` starting at
`start_frame`, i.e. over the frame range `[start_frame, end_frame)`. -/

/-- Frame index derived from a timestamp: `int(t * fps)`. -/
def frameIndexOf (t fps : ℚ) : ℤ := pyInt (t * fps)

/-- The frame indices visited by the tracking loop of
`_track_faces_in_range` (assuming every read succeeds). -/
def trackedFrames (startTime endTime fps : ℚ) : List ℤ :=
  (List.range (frameIndexOf endTime fps - frameIndexOf startTime fps).toNat).map
    (fun (i : ℕ) => frameIndexOf startTime fps + (i : ℤ))

/-- C8 counterexample: the claim says `start_frame = round(start_time * fps)`
(rounding to nearest); the code truncates with `int(...)`.  At
`start_time = 0.15`, `fps = 10` the product is `1.5`: the code yields frame
1, rounding to nearest yields 2. -/
theorem C8_counterexample :
    frameIndexOf (15/100) 10 = 1 ∧ round ((15/100 : ℚ) * 10) = 2 ∧
    frameIndexOf (15/100) 10 ≠ round ((15/100 : ℚ) * 10) := by
  have h1 : frameIndexOf (15/100) 10 = 1 := by
    rw [frameIndexOf, pyInt]
    norm_num
  have h2 : round ((15/100 : ℚ) * 10) = 2 := by
    rw [round_eq]
    norm_num
  exact ⟨h1, h2, by rw [h1, h2]; decide⟩

/-- C8 (amended): the Clip Boundary Mapper computes
`start_frame = int(start_time * fps)` and `end_frame = int(end_time * fps)`
by truncation (the floor, for the non-negative inputs the validation
guarantees), and processes exactly the frame range
`[start_frame, end_frame)`. -/
theorem C8_frame_range (st et fps : ℚ) (hst : 0 ≤ st) (hfps : 0 ≤ fps) :
    frameIndexOf st fps = ⌊st * fps⌋ ∧
    ∀ i : ℤ, i ∈ trackedFrames st et fps ↔
      frameIndexOf st fps ≤ i ∧ i < frameIndexOf et fps := by
  constructor
  · rw [frameIndexOf, pyInt, if_pos (mul_nonneg hst hfps)]
  · intro i
    rw [trackedFrames]
    constructor
    · intro h
      obtain ⟨k, hk, hki⟩ := List.mem_map.mp h
      rw [List.mem_range] at hk
      subst hki
      omega
    · rintro ⟨h1, h2⟩
      refine List.mem_map.mpr ⟨(i - frameIndexOf st fps).toNat, ?_, ?_⟩
      · rw [List.mem_range]
        omega
      · omega

/-- Concrete instance of `C8_frame_range` at `start_time = 1`,
`end_time = 2`, `fps = 10`. -/
theorem C8_frame_range_witness :
    ((0 : ℚ) ≤ 1 ∧ (0 : ℚ) ≤ 10) ∧
    (frameIndexOf 1 10 = ⌊(1 : ℚ) * 10⌋ ∧
    ∀ i : ℤ, i ∈ trackedFrames 1 2 10 ↔
      frameIndexOf 1 10 ≤ i ∧ i < frameIndexOf 2 10) :=
  ⟨⟨by decide, by decide⟩, C8_frame_range 1 2 10 (by decide) (by decide)⟩

/-! ## Request validation — `render_clip` (main.py, lines 361–394) and
`SmartClipper.create_clip` (smart_clipper.py, lines 225–229).

The endpoint validates, in source order: file existence (404), negative
start time (400), inverted time range (400), unknown crop-mode token (400),
and the aspect-ratio token against the allowed enumeration (400), before
invoking `SmartClipper.create_clip` — the expensive decode/detect/render
work.  The `Except` result separates rejection (`.error` with HTTP status
and message) from handing the validated fields to `create_clip` (`.ok`). -/

/-- Modelled from the spec: `ALLOWED_ASPECT_RATIOS` is imported by `main.py`
from `config.py` but is absent from the provided `config.py`; the spec fixes
the allowed enumeration as `"9:16"`, `"1:1"`, `"4:5"`, `"16:9"`. -/
def allowedAspectRatios : List String := ["9:16", "1:1", "4:5", "16:9"]

/-- The fields of a clip-extraction request reaching `render_clip`
(`video_path` is abstracted to whether the file exists). -/
structure ClipRequest where
  fileExists : Bool
  startTime : ℚ
  endTime : ℚ
  cropMode : String
  aspectRatio : Option String

/-- Embedding of `ar_str = request.aspect_ratio or "9:16"`: the Python `or` replaces both
`None` and the empty string by the default. -/
def effectiveAspectRatio (req : ClipRequest) : String :=
  match req.aspectRatio with
  | none => "9:16"
  | some s => if s = "" then "9:16" else s

/-- Embedding of the validation prefix of `render_clip`: each failed check
raises an `HTTPException` before `smart_clipper.create_clip` is called. -/
def renderClipValidate (req : ClipRequest) :
    Except (ℕ × String) (ℚ × ℚ × String × String) :=
  if req.fileExists = false then .error (404, "Video file not found")
  else if req.startTime < 0 then .error (400, "start_time must be >= 0")
  else if req.startTime ≥ req.endTime then
    .error (400, "start_time must be less than end_time")
  else if req.cropMode ∉ (["dynamic", "static"] : List String) then
    .error (400, "crop_mode must be dynamic or static")
  else if effectiveAspectRatio req ∉ allowedAspectRatios then
    .error (400, "Invalid aspect_ratio")
  else .ok (req.startTime, req.endTime, req.cropMode, effectiveAspectRatio req)

/-- C9 counterexample: the empty string is an aspect-ratio token outside the
allowed enumeration, but a request carrying it is not rejected — the
`ar_str = request.aspect_ratio or "9:16"` defaulting silently substitutes
the `"9:16"` fallback and validation accepts the request, handing the
substituted token on to `create_clip`. -/
theorem C9_counterexample :
    ("" : String) ∉ allowedAspectRatios ∧
    effectiveAspectRatio ⟨true, 1, 2, "dynamic", some ""⟩ = "9:16" ∧
    renderClipValidate ⟨true, 1, 2, "dynamic", some ""⟩ =
      .ok (1, 2, "dynamic", "9:16") := by
  refine ⟨by decide, rfl, ?_⟩
  rw [renderClipValidate]
  rw [if_neg (by simp : ¬(true = false))]
  rw [if_neg (by norm_num : ¬((1 : ℚ) < 0))]
  rw [if_neg (by norm_num : ¬((1 : ℚ) ≥ 2))]
  rw [if_neg (by decide : ¬(("dynamic" : String) ∉ (["dynamic", "static"] : List String)))]
  rw [if_neg (by decide :
    ¬(effectiveAspectRatio ⟨true, 1, 2, "dynamic", some ""⟩ ∉ allowedAspectRatios))]
  rfl

/-- C9 (amended): every clip-extraction request with a malformed time range
(`start_time >= end_time` or `start_time < 0`), an unknown crop-mode token,
or a non-empty aspect-ratio token outside the allowed enumeration is rejected
with a 400 validation error, and `create_clip` (decoding, detection,
rendering) is never reached; a missing or empty aspect-ratio token, by
contrast, is silently defaulted to `"9:16"` and accepted. -/
theorem C9_validation_rejects (req : ClipRequest)
    (hex : req.fileExists = true)
    (hbad : req.startTime ≥ req.endTime ∨ req.startTime < 0 ∨
      req.cropMode ∉ (["dynamic", "static"] : List String) ∨
      (∃ s, req.aspectRatio = some s ∧ s ≠ "" ∧ s ∉ allowedAspectRatios)) :
    ∃ msg : String, renderClipValidate req = .error (400, msg) := by
  have hbad' : req.startTime ≥ req.endTime ∨ req.startTime < 0 ∨
      req.cropMode ∉ (["dynamic", "static"] : List String) ∨
      effectiveAspectRatio req ∉ allowedAspectRatios := by
    rcases hbad with hb | hb | hb | ⟨s, hs, hsne, hsnot⟩
    · exact Or.inl hb
    · exact Or.inr (Or.inl hb)
    · exact Or.inr (Or.inr (Or.inl hb))
    · refine Or.inr (Or.inr (Or.inr ?_))
      rw [effectiveAspectRatio, hs]
      simpa [hsne] using hsnot
  rw [renderClipValidate, hex]
  rw [if_neg (by simp : ¬(true = false))]
  split_ifs with h1 h2 h3 h4 <;>
    first
      | exact ⟨_, rfl⟩
      | (exfalso; tauto)

/-- Concrete instance of `C9_validation_rejects`: a well-formed request apart
from the non-empty unknown aspect-ratio token `"21:9"`. -/
theorem C9_validation_rejects_witness :
    ((⟨true, 1, 2, "dynamic", some "21:9"⟩ : ClipRequest).fileExists = true ∧
      (∃ s, (⟨true, 1, 2, "dynamic", some "21:9"⟩ : ClipRequest).aspectRatio =
        some s ∧ s ≠ "" ∧ s ∉ allowedAspectRatios)) ∧
    ∃ msg : String,
      renderClipValidate ⟨true, 1, 2, "dynamic", some "21:9"⟩ =
        .error (400, msg) :=
  ⟨⟨rfl, ⟨"21:9", rfl, by decide, by decide⟩⟩,
    C9_validation_rejects ⟨true, 1, 2, "dynamic", some "21:9"⟩ rfl
      (Or.inr (Or.inr (Or.inr ⟨"21:9", rfl, by decide, by decide⟩)))⟩

/-! ## Render strategy — `SmartClipper._render_clip` (smart_clipper.py,
lines 576–639) and `SmartClipper._render_dynamic_crop` (lines 701–775).

`_render_dynamic_crop` never performs per-frame panning: with more than one
coordinate it logs a warning and calls `_render_static_crop` at the average
position; with at most one coordinate it calls `_render_static_crop` at that
position.  `_render_clip` nevertheless reports the requested `crop_mode`
in the success response. -/

/-- The FFmpeg invocation actually issued by the render stage: always a
fixed-position crop filter `crop=w:h:x:y`. -/
inductive FFmpegCall where
  | staticCrop (x y w h : ℤ)
  deriving DecidableEq

/-- Embedding of `int(np.mean(coords))`. -/
def avgInt (coords : List ℤ) : ℤ :=
  pyInt ((coords.map (fun c => (c : ℚ))).sum / (coords.length : ℚ))

/-- Embedding of `_render_dynamic_crop`: falls back to a fixed-position crop
at the average coordinate (more than one coordinate) or at the single
coordinate (otherwise). -/
def renderDynamicCrop (coords : List ℤ) (w h : ℤ) : FFmpegCall :=
  if 1 < coords.length then .staticCrop (avgInt coords) 0 w h
  else .staticCrop (coords.headD 0) 0 w h

/-- Whether an issued FFmpeg call renders one fixed crop position. -/
def rendersSinglePosition : FFmpegCall → Bool
  | .staticCrop _ _ _ _ => true

/-- Embedding of the strategy dispatch of `_render_clip` and success reporting:
the first component is the FFmpeg call issued, the second is the
`crop_mode` field of the success response (the requested mode, verbatim). -/
def renderClip (cropMode : String) (smoothedCoords : List ℤ)
    (height cropW cropH : ℤ) : FFmpegCall × String :=
  let centerY := max 0 ((height - cropH) / 2)
  if cropMode = "static" then
    (.staticCrop (avgInt smoothedCoords) centerY cropW cropH, cropMode)
  else
    (renderDynamicCrop smoothedCoords cropW cropH, cropMode)

/-- C1: the render stage cannot honor per-frame positions — every
`_render_dynamic_crop` call issues a single fixed-position crop — yet a
successful `"dynamic"` request reports `crop_mode = "dynamic"`, not the
`"static"` strategy actually used.  Concretely, coordinates `[0, 100]`
render one fixed crop at the average position 50 while the response still
says `"dynamic"`. -/
theorem C1_dynamic_mode_misreported :
    (∀ (coords : List ℤ) (w h : ℤ),
      rendersSinglePosition (renderDynamicCrop coords w h) = true) ∧
    renderClip "dynamic" [0, 100] 1080 607 1080 =
      (FFmpegCall.staticCrop 50 0 607 1080, "dynamic") := by
  constructor
  · intro coords w h
    rw [renderDynamicCrop]
    split <;> rfl
  · have havg : avgInt [0, 100] = 50 := by
      rw [avgInt, pyInt]
      norm_num
    rw [renderClip, renderDynamicCrop]
    norm_num [havg]

/-! ## Candidate Scorer — `SmartClipper._select_speaking_face`
(smart_clipper.py, lines 438–504); `VideoAnalyzer._select_speaking_face`
(analyzer.py, lines 161–227) is textually identical in this scoring logic.

`score = size_score * 0.5 + center_score * 0.3 + confidence * 0.2`, where
`size_score = face_area / frame_area` and
`center_score = 1 - distance_from_center / max_distance` (Euclidean
distances, hence `ℝ` and `Real.sqrt` in the embedding); the loop keeps the
first detection whose score strictly exceeds the running best, starting from
`best_score = -1`. -/

/-- One MediaPipe detection: relative bounding box plus score list. -/
structure Detection where
  xmin : ℚ
  ymin : ℚ
  boxW : ℚ
  boxH : ℚ
  scores : List ℚ
  deriving DecidableEq

/-- Embedding of the per-detection score
`size_score * 0.5 + center_score * 0.3 + confidence * 0.2`; the confidence
is `detection.score[0] if detection.score else 0.5`. -/
noncomputable def detectionScore (W H : ℚ) (d : Detection) : ℝ :=
  ((d.boxW : ℝ) * (W : ℝ) * ((d.boxH : ℝ) * (H : ℝ)) / ((W : ℝ) * (H : ℝ))) * (5/10) +
  (1 - Real.sqrt ((((d.xmin : ℝ) + (d.boxW : ℝ) / 2) * (W : ℝ) - (W : ℝ) / 2) ^ 2 +
        (((d.ymin : ℝ) + (d.boxH : ℝ) / 2) * (H : ℝ) - (H : ℝ) / 2) ^ 2) /
      Real.sqrt (((W : ℝ) / 2) ^ 2 + ((H : ℝ) / 2) ^ 2)) * (3/10) +
  ((d.scores.headD (1/2) : ℚ) : ℝ) * (2/10)

set_option maxHeartbeats 1000000 in
lemma detectionScore_gt_neg_one (W H : ℚ) (hW : 0 < W) (hH : 0 < H)
    (d : Detection)
    (hd : 0 ≤ d.xmin ∧ d.xmin ≤ 1 ∧ 0 ≤ d.ymin ∧ d.ymin ≤ 1 ∧
      0 ≤ d.boxW ∧ d.boxW ≤ 1 ∧ 0 ≤ d.boxH ∧ d.boxH ≤ 1 ∧
      0 ≤ d.scores.headD (1/2)) :
    -1 < detectionScore W H d := by
  obtain ⟨hx0, hx1, hy0, hy1, hw0, hw1, hh0, hh1, hc0⟩ := hd
  rw [detectionScore]
  have hWR : (0 : ℝ) < (W : ℝ) := by exact_mod_cast hW
  have hHR : (0 : ℝ) < (H : ℝ) := by exact_mod_cast hH
  have hx0' : (0 : ℝ) ≤ (d.xmin : ℝ) := by exact_mod_cast hx0
  have hx1' : ((d.xmin : ℝ)) ≤ 1 := by exact_mod_cast hx1
  have hy0' : (0 : ℝ) ≤ (d.ymin : ℝ) := by exact_mod_cast hy0
  have hy1' : ((d.ymin : ℝ)) ≤ 1 := by exact_mod_cast hy1
  have hw0' : (0 : ℝ) ≤ (d.boxW : ℝ) := by exact_mod_cast hw0
  have hw1' : ((d.boxW : ℝ)) ≤ 1 := by exact_mod_cast hw1
  have hh0' : (0 : ℝ) ≤ (d.boxH : ℝ) := by exact_mod_cast hh0
  have hh1' : ((d.boxH : ℝ)) ≤ 1 := by exact_mod_cast hh1
  have hc0' : (0 : ℝ) ≤ ((d.scores.headD (1/2) : ℚ) : ℝ) := by exact_mod_cast hc0
  have hsize : (0 : ℝ) ≤
      (d.boxW : ℝ) * (W : ℝ) * ((d.boxH : ℝ) * (H : ℝ)) / ((W : ℝ) * (H : ℝ)) := by
    positivity
  have hmaxpos : (0 : ℝ) < Real.sqrt (((W : ℝ) / 2) ^ 2 + ((H : ℝ) / 2) ^ 2) := by
    apply Real.sqrt_pos.mpr
    positivity
  set dx : ℝ := ((d.xmin : ℝ) + (d.boxW : ℝ) / 2) * (W : ℝ) - (W : ℝ) / 2 with hdxdef
  set dy : ℝ := ((d.ymin : ℝ) + (d.boxH : ℝ) / 2) * (H : ℝ) - (H : ℝ) / 2 with hdydef
  have hdxlow : -(W : ℝ) ≤ dx := by
    rw [hdxdef]
    nlinarith [mul_nonneg (by linarith : (0 : ℝ) ≤ (d.xmin : ℝ) + (d.boxW : ℝ) / 2) hWR.le]
  have hdxhigh : dx ≤ (W : ℝ) := by
    rw [hdxdef]
    nlinarith [mul_nonneg (by linarith : (0 : ℝ) ≤ 3 / 2 - ((d.xmin : ℝ) + (d.boxW : ℝ) / 2)) hWR.le]
  have hdylow : -(H : ℝ) ≤ dy := by
    rw [hdydef]
    nlinarith [mul_nonneg (by linarith : (0 : ℝ) ≤ (d.ymin : ℝ) + (d.boxH : ℝ) / 2) hHR.le]
  have hdyhigh : dy ≤ (H : ℝ) := by
    rw [hdydef]
    nlinarith [mul_nonneg (by linarith : (0 : ℝ) ≤ 3 / 2 - ((d.ymin : ℝ) + (d.boxH : ℝ) / 2)) hHR.le]
  have hx2 : dx ^ 2 ≤ (W : ℝ) ^ 2 := sq_le_sq' hdxlow hdxhigh
  have hy2 : dy ^ 2 ≤ (H : ℝ) ^ 2 := sq_le_sq' hdylow hdyhigh
  clear_value dx dy
  have hdist_le : Real.sqrt (dx ^ 2 + dy ^ 2) ≤
      2 * Real.sqrt (((W : ℝ) / 2) ^ 2 + ((H : ℝ) / 2) ^ 2) := by
    have h4 : (2 : ℝ) * Real.sqrt (((W : ℝ) / 2) ^ 2 + ((H : ℝ) / 2) ^ 2) =
        Real.sqrt (4 * (((W : ℝ) / 2) ^ 2 + ((H : ℝ) / 2) ^ 2)) := by
      rw [show (4 : ℝ) = 2 ^ 2 by norm_num, Real.sqrt_mul (by positivity),
        Real.sqrt_sq (by norm_num)]
    rw [h4]
    apply Real.sqrt_le_sqrt
    have h6 : 4 * (((W : ℝ) / 2) ^ 2 + ((H : ℝ) / 2) ^ 2) =
        (W : ℝ) ^ 2 + (H : ℝ) ^ 2 := by ring
    linarith [hx2, hy2, h6]
  have hcenter : (-1 : ℝ) ≤ 1 - Real.sqrt (dx ^ 2 + dy ^ 2) /
      Real.sqrt (((W : ℝ) / 2) ^ 2 + ((H : ℝ) / 2) ^ 2) := by
    have h5 : Real.sqrt (dx ^ 2 + dy ^ 2) /
        Real.sqrt (((W : ℝ) / 2) ^ 2 + ((H : ℝ) / 2) ^ 2) ≤ 2 := by
      rw [div_le_iff₀ hmaxpos]
      linarith
    linarith
  linarith [hsize, hc0', hcenter]

/-- Loop body of the selection: keep the incoming detection only when its
score strictly exceeds the running best. -/
noncomputable def bestStep (f : Detection → ℝ) (acc : Option Detection × ℝ)
    (d : Detection) : Option Detection × ℝ :=
  if f d > acc.2 then (some d, f d) else acc

lemma foldBest_spec (f : Detection → ℝ) (l : List Detection) :
    ∀ cur : Detection,
      ∃ r, l.foldl (bestStep f) (some cur, f cur) = (some r, f r) ∧
        ((r = cur ∧ ∀ a ∈ l, f a ≤ f cur) ∨
         (∃ l₁ l₂, l = l₁ ++ r :: l₂ ∧ f cur < f r ∧
           (∀ a ∈ l₁, f a < f r) ∧ ∀ a ∈ l₂, f a ≤ f r)) := by
  induction l with
  | nil =>
    intro cur
    exact ⟨cur, rfl, Or.inl ⟨rfl, by simp⟩⟩
  | cons a rest ih =>
    intro cur
    by_cases hfa : f a > f cur
    · have hfa' : f cur < f a := hfa
      have hstep : (a :: rest).foldl (bestStep f) (some cur, f cur) =
          rest.foldl (bestStep f) (some a, f a) := by
        rw [List.foldl_cons, bestStep, if_pos hfa]
      obtain ⟨r, hr, hcase⟩ := ih a
      refine ⟨r, by rw [hstep]; exact hr, ?_⟩
      rcases hcase with ⟨rfl, hall⟩ | ⟨l₁, l₂, hsplit, hlt, hl₁, hl₂⟩
      · exact Or.inr ⟨[], rest, by simp, hfa', by simp, hall⟩
      · refine Or.inr ⟨a :: l₁, l₂, by rw [hsplit]; rfl,
          lt_trans hfa' hlt, ?_, hl₂⟩
        intro b hb
        rcases List.mem_cons.mp hb with hb | hb
        · rw [hb]; exact hlt
        · exact hl₁ b hb
    · have hstep : (a :: rest).foldl (bestStep f) (some cur, f cur) =
          rest.foldl (bestStep f) (some cur, f cur) := by
        rw [List.foldl_cons, bestStep, if_neg hfa]
      obtain ⟨r, hr, hcase⟩ := ih cur
      refine ⟨r, by rw [hstep]; exact hr, ?_⟩
      rcases hcase with ⟨rfl, hall⟩ | ⟨l₁, l₂, hsplit, hlt, hl₁, hl₂⟩
      · refine Or.inl ⟨rfl, ?_⟩
        intro b hb
        rcases List.mem_cons.mp hb with hb | hb
        · rw [hb]; exact le_of_not_lt hfa
        · exact hall b hb
      · refine Or.inr ⟨a :: l₁, l₂, by rw [hsplit]; rfl, hlt, ?_, hl₂⟩
        intro b hb
        rcases List.mem_cons.mp hb with hb | hb
        · rw [hb]; exact lt_of_le_of_lt (le_of_not_lt hfa) hlt
        · exact hl₁ b hb

/-- Embedding of `_select_speaking_face`: empty list gives none, a singleton
is returned as-is, otherwise the strict-improvement fold starting from
`(None, -1)`. -/
noncomputable def selectSpeakingFace (W H : ℚ) (detections : List Detection) :
    Option Detection :=
  match detections with
  | [] => none
  | [d] => some d
  | _ =>
    (detections.foldl (bestStep (detectionScore W H))
      ((none : Option Detection), (-1 : ℝ))).1

/-- C4: for every detection set with at least 2 entries, positive frame
dimensions, and data-model-valid fields, the Candidate Scorer returns a
detection whose score is greater than or equal to every score of the set, and
it is the earliest-listed maximal one: the list splits as `l₁ ++ r :: l₂`
with every detection before `r` scoring strictly below it. -/
theorem C4_scorer (W H : ℚ) (hW : 0 < W) (hH : 0 < H)
    (ds : List Detection) (hlen : 2 ≤ ds.length)
    (hvalid : ∀ d ∈ ds, 0 ≤ d.xmin ∧ d.xmin ≤ 1 ∧ 0 ≤ d.ymin ∧ d.ymin ≤ 1 ∧
      0 ≤ d.boxW ∧ d.boxW ≤ 1 ∧ 0 ≤ d.boxH ∧ d.boxH ≤ 1 ∧
      0 ≤ d.scores.headD (1/2)) :
    ∃ r l₁ l₂, selectSpeakingFace W H ds = some r ∧ ds = l₁ ++ r :: l₂ ∧
      (∀ d ∈ ds, detectionScore W H d ≤ detectionScore W H r) ∧
      (∀ d ∈ l₁, detectionScore W H d < detectionScore W H r) := by
  match ds, hlen with
  | d₀ :: d₁ :: rest, _ =>
    set f := detectionScore W H with hf
    have hsel : selectSpeakingFace W H (d₀ :: d₁ :: rest) =
        ((d₀ :: d₁ :: rest).foldl (bestStep f) (none, -1)).1 := rfl
    have hd₀ : -1 < f d₀ :=
      detectionScore_gt_neg_one W H hW hH d₀ (hvalid d₀ (by simp))
    have hstep0 : (d₀ :: d₁ :: rest).foldl (bestStep f) (none, -1) =
        (d₁ :: rest).foldl (bestStep f) (some d₀, f d₀) := by
      rw [List.foldl_cons]
      congr 1
      rw [bestStep, if_pos hd₀]
    obtain ⟨r, hr, hcase⟩ := foldBest_spec f (d₁ :: rest) d₀
    rw [hstep0, hr] at hsel
    rcases hcase with ⟨rfl, hall⟩ | ⟨l₁, l₂, hsplit, hlt, hl₁, hl₂⟩
    · refine ⟨r, [], d₁ :: rest, hsel, rfl, ?_, by simp⟩
      intro d hd
      rcases List.mem_cons.mp hd with hd | hd
      · rw [hd]
      · exact hall d hd
    · refine ⟨r, d₀ :: l₁, l₂, hsel, by rw [hsplit, List.cons_append], ?_, ?_⟩
      · intro d hd
        rcases List.mem_cons.mp hd with hd | hd
        · rw [hd]; exact le_of_lt hlt
        · rw [hsplit] at hd
          rcases List.mem_append.mp hd with hd | hd
          · exact le_of_lt (hl₁ d hd)
          · rcases List.mem_cons.mp hd with hd | hd
            · rw [hd]
            · exact hl₂ d hd
      · intro d hd
        rcases List.mem_cons.mp hd with hd | hd
        · rw [hd]; exact hlt
        · exact hl₁ d hd

/-- Concrete instance of `C4_scorer`: a full-frame confident detection
followed by a degenerate one, in a 1920 by 1080 frame. -/
theorem C4_scorer_witness :
    ((0 : ℚ) < 1920 ∧ (0 : ℚ) < 1080 ∧
      2 ≤ ([⟨0, 0, 1, 1, [1]⟩, ⟨0, 0, 0, 0, [0]⟩] : List Detection).length ∧
      (∀ d ∈ ([⟨0, 0, 1, 1, [1]⟩, ⟨0, 0, 0, 0, [0]⟩] : List Detection),
        0 ≤ d.xmin ∧ d.xmin ≤ 1 ∧ 0 ≤ d.ymin ∧ d.ymin ≤ 1 ∧
        0 ≤ d.boxW ∧ d.boxW ≤ 1 ∧ 0 ≤ d.boxH ∧ d.boxH ≤ 1 ∧
        0 ≤ d.scores.headD (1/2))) ∧
    (∃ r l₁ l₂,
      selectSpeakingFace 1920 1080
        ([⟨0, 0, 1, 1, [1]⟩, ⟨0, 0, 0, 0, [0]⟩] : List Detection) = some r ∧
      ([⟨0, 0, 1, 1, [1]⟩, ⟨0, 0, 0, 0, [0]⟩] : List Detection) =
        l₁ ++ r :: l₂ ∧
      (∀ d ∈ ([⟨0, 0, 1, 1, [1]⟩, ⟨0, 0, 0, 0, [0]⟩] : List Detection),
        detectionScore 1920 1080 d ≤ detectionScore 1920 1080 r) ∧
      (∀ d ∈ l₁, detectionScore 1920 1080 d < detectionScore 1920 1080 r)) :=
  ⟨⟨by decide, by decide, by decide, by decide⟩,
    C4_scorer 1920 1080 (by decide) (by decide)
      ([⟨0, 0, 1, 1, [1]⟩, ⟨0, 0, 0, 0, [0]⟩] : List Detection)
      (by decide) (by decide)⟩

end VideoWizard
